import Mathlib

/-
Verification of the attestation-core logic of the ensip-25 repository.

The TypeScript source (src/lib/attestation.ts, plus the agent-file closure of
resolveAttestation in InteropAddress.tsx) is shallowly embedded below.
Strings are modelled as sequences of Unicode scalar values (Lean `String`);
JavaScript string indices are therefore scalar-value indices rather than
UTF-16 code-unit indices (the two agree on all inputs relevant here), and
lone surrogates, which Lean strings cannot represent, are treated as
unrepresentable.  JavaScript host built-ins used by the source
(JSON.parse, atob, btoa, decodeURIComponent, String.prototype methods)
are given explicit executable models; `fetch` and
`String.prototype.toLowerCase`, whose behavior lies outside the embedding
(the network, and the full Unicode Default Case Conversion), are passed
as function parameters, so theorems about them hold for the real host
functions.
-/

-- ===========================================================================
-- JavaScript string primitives
-- ===========================================================================

/-- The WhiteSpace and LineTerminator characters recognised by
`String.prototype.trimStart`. -/
def jsWhitespace (c : Char) : Bool :=
  let n := c.toNat
  n == 0x9 || n == 0xA || n == 0xB || n == 0xC || n == 0xD || n == 0x20 ||
  n == 0xA0 || n == 0x1680 || (0x2000 ≤ n && n ≤ 0x200A) || n == 0x2028 ||
  n == 0x2029 || n == 0x202F || n == 0x205F || n == 0x3000 || n == 0xFEFF

/-- Model of `String.prototype.trimStart`. -/
def jsTrimStart (s : String) : String :=
  String.mk (s.data.dropWhile jsWhitespace)

/-- Model of `String.prototype.startsWith`. -/
def jsStartsWith (s p : String) : Bool :=
  s.data.take p.data.length == p.data

/-- First index at which `sub` occurs in `cs` (offset by `i`), scanning left
to right; `none` if it never occurs.  Helper for `jsIndexOf`. -/
def jsIndexOfAux (cs sub : List Char) (i : Nat) : Option Nat :=
  match cs with
  | [] => if sub.isEmpty then some i else none
  | c :: rest =>
    if (c :: rest).take sub.length == sub then some i
    else jsIndexOfAux rest sub (i + 1)

/-- Model of `String.prototype.indexOf`: first occurrence index, `-1` if
absent. -/
def jsIndexOf (s sub : String) : Int :=
  match jsIndexOfAux s.data sub.data 0 with
  | some i => (i : Int)
  | none => -1

/-- Model of `String.prototype.includes`. -/
def jsIncludes (s sub : String) : Bool :=
  (jsIndexOfAux s.data sub.data 0).isSome

/-- Model of two-argument `String.prototype.slice`, with JavaScript's
negative-index and clamping rules. -/
def jsSlice (s : String) (start endI : Int) : String :=
  let len : Int := (s.data.length : Int)
  let a := if start < 0 then max (len + start) 0 else min start len
  let b := if endI < 0 then max (len + endI) 0 else min endI len
  String.mk ((s.data.take b.toNat).drop a.toNat)

/-- Model of one-argument `String.prototype.slice` (slice to end of
string). -/
def jsSliceFrom (s : String) (start : Int) : String :=
  jsSlice s start (s.data.length : Int)

/-- Lowercasing of the ASCII letters only.  This is NOT a model of
`String.prototype.toLowerCase`, whose full Unicode Default Case Conversion
is treated as a host capability and passed as a function parameter
wherever the source calls it (exactly as `fetch` is); `asciiToLower` is
one concrete instance of that parameter, agreeing with the host function
on ASCII strings, used to evaluate witnesses on concrete ASCII inputs. -/
def asciiToLower (s : String) : String :=
  String.mk (s.data.map fun c =>
    if 'A' ≤ c ∧ c ≤ 'Z' then Char.ofNat (c.toNat + 32) else c)

-- ===========================================================================
-- JSON values and a model of JSON.parse
-- ===========================================================================

/-- JSON values as produced by `JSON.parse`.  Numbers keep their source
token (no claim below inspects a numeric value, and this avoids modelling
IEEE-754 doubles).  Object fields are kept in insertion order with unique
keys, matching JavaScript object semantics after duplicate-key
resolution. -/
inductive Json where
  | null : Json
  | bool (b : Bool) : Json
  | num (raw : String) : Json
  | str (s : String) : Json
  | arr (elems : List Json) : Json
  | obj (fields : List (String × Json)) : Json
deriving Repr

/-- Insert a key/value pair the way JavaScript object literals resolve
duplicate keys: an existing key keeps its position but takes the new value,
a fresh key is appended. -/
def objInsert (fields : List (String × Json)) (k : String) (v : Json) :
    List (String × Json) :=
  if fields.any (fun p => p.1 == k) then
    fields.map (fun p => if p.1 == k then (k, v) else p)
  else fields ++ [(k, v)]

/-- Look up an own property of a JavaScript object. -/
def objGet (fields : List (String × Json)) (k : String) : Option Json :=
  (fields.find? (fun p => p.1 == k)).map (fun p => p.2)

/-- Optional-chaining member access `v?.k`: `none` models `undefined`. -/
def jsGetOpt (v : Json) (k : String) : Option Json :=
  match v with
  | Json.obj fields => objGet fields k
  | _ => none

/-- The insignificant whitespace characters of the JSON grammar. -/
def isJsonWs (c : Char) : Bool :=
  c == ' ' || c == '\t' || c == '\n' || c == '\x0d'

/-- Skip insignificant JSON whitespace. -/
def skipWs (cs : List Char) : List Char :=
  cs.dropWhile isJsonWs

/-- Hexadecimal digit value, `none` for a non-hex character. -/
def hexVal (c : Char) : Option Nat :=
  if '0' ≤ c ∧ c ≤ '9' then some (c.toNat - 48)
  else if 'A' ≤ c ∧ c ≤ 'F' then some (c.toNat - 55)
  else if 'a' ≤ c ∧ c ≤ 'f' then some (c.toNat - 87)
  else none

/-- Parse the body of a JSON string literal after the opening quote,
returning the decoded characters and the input remaining after the closing
quote.  Escaped surrogate pairs are combined into one scalar value; a lone
escaped surrogate is rejected (such strings are not representable as
sequences of scalar values). -/
def parseStringBody (cs : List Char) : Option (List Char × List Char) :=
  match cs with
  | [] => none
  | c :: rest =>
    if c = '"' then some ([], rest)
    else if c = '\\' then
      match rest with
      | [] => none
      | e :: rest2 =>
        if e = '"' ∨ e = '\\' ∨ e = '/' then
          (parseStringBody rest2).map (fun p => (e :: p.1, p.2))
        else if e = 'b' then
          (parseStringBody rest2).map (fun p => ('\x08' :: p.1, p.2))
        else if e = 'f' then
          (parseStringBody rest2).map (fun p => ('\x0c' :: p.1, p.2))
        else if e = 'n' then
          (parseStringBody rest2).map (fun p => ('\n' :: p.1, p.2))
        else if e = 'r' then
          (parseStringBody rest2).map (fun p => ('\x0d' :: p.1, p.2))
        else if e = 't' then
          (parseStringBody rest2).map (fun p => ('\t' :: p.1, p.2))
        else if e = 'u' then
          match rest2 with
          | h1 :: h2 :: h3 :: h4 :: rest3 =>
            match hexVal h1, hexVal h2, hexVal h3, hexVal h4 with
            | some v1, some v2, some v3, some v4 =>
              let v := v1 * 4096 + v2 * 256 + v3 * 16 + v4
              if 0xD800 ≤ v ∧ v ≤ 0xDBFF then
                match rest3 with
                | '\\' :: 'u' :: g1 :: g2 :: g3 :: g4 :: rest4 =>
                  match hexVal g1, hexVal g2, hexVal g3, hexVal g4 with
                  | some w1, some w2, some w3, some w4 =>
                    let w := w1 * 4096 + w2 * 256 + w3 * 16 + w4
                    if 0xDC00 ≤ w ∧ w ≤ 0xDFFF then
                      let cp := 0x10000 + (v - 0xD800) * 1024 + (w - 0xDC00)
                      (parseStringBody rest4).map
                        (fun p => (Char.ofNat cp :: p.1, p.2))
                    else none
                  | _, _, _, _ => none
                | _ => none
              else if 0xDC00 ≤ v ∧ v ≤ 0xDFFF then none
              else
                (parseStringBody rest3).map
                  (fun p => (Char.ofNat v :: p.1, p.2))
            | _, _, _, _ => none
          | _ => none
        else none
    else if c.toNat < 0x20 then none
    else (parseStringBody rest).map (fun p => (c :: p.1, p.2))

/-- Parse the integer part of a JSON number (a single `0`, or a nonzero
digit followed by digits). -/
def parseIntPart (cs : List Char) : Option (List Char × List Char) :=
  match cs with
  | [] => none
  | c :: rest =>
    if c = '0' then some ([c], rest)
    else if c.isDigit then
      let p := rest.span Char.isDigit
      some (c :: p.1, p.2)
    else none

/-- Parse an optional fraction part (`.` followed by one or more digits). -/
def parseFracPart (cs : List Char) : Option (List Char × List Char) :=
  match cs with
  | '.' :: rest =>
    let p := rest.span Char.isDigit
    if p.1.isEmpty then none else some ('.' :: p.1, p.2)
  | _ => some ([], cs)

/-- Parse an optional exponent part (`e`/`E`, optional sign, one or more
digits). -/
def parseExpPart (cs : List Char) : Option (List Char × List Char) :=
  match cs with
  | [] => some ([], [])
  | c :: rest =>
    if c = 'e' ∨ c = 'E' then
      let sr : List Char × List Char :=
        match rest with
        | s :: r => if s = '+' ∨ s = '-' then ([s], r) else ([], rest)
        | [] => ([], [])
      let p := sr.2.span Char.isDigit
      if p.1.isEmpty then none else some (c :: (sr.1 ++ p.1), p.2)
    else some ([], cs)

/-- Parse a JSON number token, returning the raw consumed characters and
the rest of the input. -/
def parseNumber (cs : List Char) : Option (List Char × List Char) := do
  let sg : List Char × List Char :=
    match cs with
    | '-' :: r => (['-'], r)
    | _ => ([], cs)
  let (ip, cs2) ← parseIntPart sg.2
  let (fp, cs3) ← parseFracPart cs2
  let (ep, cs4) ← parseExpPart cs3
  pure (sg.1 ++ ip ++ fp ++ ep, cs4)

mutual

/-- Parse one JSON value (after skipping leading whitespace), fuel-bounded.
Helper for `jsonParse`. -/
def parseValue : Nat → List Char → Option (Json × List Char)
  | 0, _ => none
  | fuel + 1, cs =>
    match skipWs cs with
    | [] => none
    | c :: rest =>
      if c = '\x7b' then parseObjRest fuel rest
      else if c = '[' then parseArrRest fuel rest
      else if c = '"' then
        (parseStringBody rest).map (fun p => (Json.str (String.mk p.1), p.2))
      else if c = 't' then
        match rest with
        | 'r' :: 'u' :: 'e' :: r => some (Json.bool true, r)
        | _ => none
      else if c = 'f' then
        match rest with
        | 'a' :: 'l' :: 's' :: 'e' :: r => some (Json.bool false, r)
        | _ => none
      else if c = 'n' then
        match rest with
        | 'u' :: 'l' :: 'l' :: r => some (Json.null, r)
        | _ => none
      else
        (parseNumber (c :: rest)).map
          (fun p => (Json.num (String.mk p.1), p.2))

/-- Parse the remainder of a JSON array after its opening bracket. -/
def parseArrRest : Nat → List Char → Option (Json × List Char)
  | 0, _ => none
  | fuel + 1, cs =>
    match skipWs cs with
    | ']' :: r => some (Json.arr [], r)
    | _ => parseArrElems fuel cs []

/-- Parse the comma-separated elements of a nonempty JSON array
(accumulator holds previous elements in reverse). -/
def parseArrElems : Nat → List Char → List Json → Option (Json × List Char)
  | 0, _, _ => none
  | fuel + 1, cs, acc => do
    let (v, r1) ← parseValue fuel cs
    match skipWs r1 with
    | ',' :: r2 => parseArrElems fuel r2 (v :: acc)
    | ']' :: r2 => some (Json.arr (v :: acc).reverse, r2)
    | _ => none

/-- Parse the remainder of a JSON object after its opening brace. -/
def parseObjRest : Nat → List Char → Option (Json × List Char)
  | 0, _ => none
  | fuel + 1, cs =>
    match skipWs cs with
    | '\x7d' :: r => some (Json.obj [], r)
    | _ => parseObjMembers fuel cs []

/-- Parse the comma-separated members of a nonempty JSON object
(accumulator holds the fields parsed so far, in order). -/
def parseObjMembers :
    Nat → List Char → List (String × Json) → Option (Json × List Char)
  | 0, _, _ => none
  | fuel + 1, cs, acc =>
    match skipWs cs with
    | '"' :: r0 => do
      let (k, r1) ← parseStringBody r0
      match skipWs r1 with
      | ':' :: r2 => do
        let (v, r3) ← parseValue fuel r2
        let acc2 := objInsert acc (String.mk k) v
        match skipWs r3 with
        | ',' :: r4 => parseObjMembers fuel r4 acc2
        | '\x7d' :: r4 => some (Json.obj acc2, r4)
        | _ => none
      | _ => none
    | _ => none

end

/-- Model of `JSON.parse`: parse one value and require only whitespace to
remain.  `none` models a thrown `SyntaxError`.  The fuel is an upper bound
on recursion depth that is never reached for inputs of this length. -/
def jsonParse (s : String) : Option Json :=
  match parseValue (4 * s.data.length + 4) s.data with
  | some (v, rest) => if (skipWs rest).isEmpty then some v else none
  | none => none

-- ===========================================================================
-- Source functions (src/lib/attestation.ts)
-- ===========================================================================

/-- The tagged result type `AgentFileResult` of attestation.ts. -/
inductive AgentFileResult where
  | valid (endpoint : String) : AgentFileResult
  | invalid (endpoint : String) : AgentFileResult
  | notSet : AgentFileResult
  | error (message : String) : AgentFileResult
deriving DecidableEq, Repr

/-- Embedding of `buildTextRecordKey` (attestation.ts line 17): the ENS
text-record key for an agent attestation. -/
def buildTextRecordKey (registryValue : String) (agentId : String) : String :=
  "agent-registration[" ++ registryValue ++ "][" ++ agentId ++ "]"

/-- The predicate passed to `services.find` in `extractEnsEndpoint`:
object-like, non-null, with an own `name` property strictly equal to the
string "ENS". -/
def isEnsService (s : Json) : Bool :=
  match s with
  | Json.obj fields =>
    match objGet fields "name" with
    | some (Json.str nm) => nm == "ENS"
    | _ => false
  | _ => false

/-- Embedding of `extractEnsEndpoint` (attestation.ts lines 56-78).
The result is the JavaScript value of `ensService?.endpoint ?? null`:
`none` models `null`/`undefined`.  The inner `match services` models the
fact that `services.find` throws a caught `TypeError` when the `services`
field holds a non-array value. -/
def extractEnsEndpoint (jsonText : String) : Option Json :=
  let trimmed := jsTrimStart jsonText
  if !(jsStartsWith trimmed "\x7b") && !(jsStartsWith trimmed "[") then none
  else
    match jsonParse jsonText with
    | none => none
    | some parsed =>
      let services : Json :=
        match jsGetOpt parsed "services" with
        | none => Json.arr []
        | some Json.null => Json.arr []
        | some v => v
      match services with
      | Json.arr elems =>
        match elems.find? isEnsService with
        | none => none
        | some s =>
          match jsGetOpt s "endpoint" with
          | none => none
          | some Json.null => none
          | some e => some e
      | _ => none

/-- Embedding of `checkAgentFile` (attestation.ts lines 84-92), with the
declared TypeScript argument type `string | null`.  The host's
`String.prototype.toLowerCase` (full Unicode Default Case Conversion) is
the function parameter `toLower`, analogous to `fetch`: every theorem
below therefore holds for the real host lowercase in particular. -/
def checkAgentFile (toLower : String → String) (endpoint : Option String)
    (ensName : String) : AgentFileResult :=
  match endpoint with
  | none => AgentFileResult.notSet
  | some ep =>
    if toLower ep = toLower ensName then AgentFileResult.valid ep
    else AgentFileResult.invalid ep

/-- Written from the specification text of §4.3 (claim C1), for comparison
with `extractEnsEndpoint`: on a parsed JSON value, read the `services`
field, scan it in order for the first object-like element whose `name`
field is exactly the string "ENS", and return that element's `endpoint`
field if present, else absent (in JavaScript the value `null` is the
absent value, so a present `endpoint` field holding JSON null is also
absent). -/
def claimEnsLookup (v : Json) : Option Json :=
  match v with
  | Json.obj fields =>
    match objGet fields "services" with
    | some (Json.arr elems) =>
      match elems.find? isEnsService with
      | some (Json.obj fs) =>
        match objGet fs "endpoint" with
        | none => none
        | some Json.null => none
        | some e => some e
      | _ => none
    | _ => none
  | _ => none

/-- The record returned by `getVerificationStatus`. -/
structure VerificationStatus where
  label : String
  closed : Bool
deriving DecidableEq, Repr

/-- Embedding of `getVerificationStatus` (attestation.ts lines 98-113). -/
def getVerificationStatus (ensToAgent agentToEns : Bool) :
    VerificationStatus :=
  if ensToAgent && agentToEns then
    { label := "Closed — verified in both directions", closed := true }
  else if ensToAgent then { label := "ENS → Agent only", closed := false }
  else if agentToEns then { label := "Agent → ENS only", closed := false }
  else { label := "Open — no verification in either direction", closed := false }

-- ===========================================================================
-- Base64 (models of btoa / atob)
-- ===========================================================================

/-- The base64 alphabet, in index order. -/
def b64Alphabet : List Char :=
  "ABCDEFGHIJKLMNOPQRSTUVWXYZabcdefghijklmnopqrstuvwxyz0123456789+/".data

/-- Character for a six-bit group. -/
def b64Char (n : Nat) : Char :=
  b64Alphabet.getD n 'A'

/-- Six-bit value of a base64 alphabet character, `none` otherwise. -/
def b64Index (c : Char) : Option Nat :=
  if 'A' ≤ c ∧ c ≤ 'Z' then some (c.toNat - 65)
  else if 'a' ≤ c ∧ c ≤ 'z' then some (c.toNat - 71)
  else if '0' ≤ c ∧ c ≤ '9' then some (c.toNat + 4)
  else if c = '+' then some 62
  else if c = '/' then some 63
  else none

/-- Model of `btoa`'s byte-to-character encoding: three bytes become four
characters; a trailing group of one or two bytes is padded with `=`. -/
def btoaBytes : List Nat → List Char
  | [] => []
  | [b1] => [b64Char (b1 / 4), b64Char (b1 % 4 * 16), '=', '=']
  | [b1, b2] =>
    [b64Char (b1 / 4), b64Char (b1 % 4 * 16 + b2 / 16), b64Char (b2 % 16 * 4),
     '=']
  | b1 :: b2 :: b3 :: rest =>
    b64Char (b1 / 4) :: b64Char (b1 % 4 * 16 + b2 / 16) ::
    b64Char (b2 % 16 * 4 + b3 / 64) :: b64Char (b3 % 64) :: btoaBytes rest

/-- Model of `btoa`: encode a binary string (all code points below 256);
a character above U+00FF raises `InvalidCharacterError`. -/
def btoa (s : String) : Except String String :=
  if s.data.all (fun c => c.toNat < 256) then
    Except.ok (String.mk (btoaBytes (s.data.map Char.toNat)))
  else
    Except.error
      "The string to be encoded contains characters outside of the Latin1 range."

/-- The ASCII whitespace removed by the forgiving-base64 decode of
`atob`. -/
def asciiWhitespace (c : Char) : Bool :=
  c == '\x09' || c == '\x0a' || c == '\x0c' || c == '\x0d' || c == ' '

/-- Strip up to two leading characters `=` (used on the reversed input to
strip trailing padding). -/
def stripPadAux : List Char → List Char
  | [] => []
  | c :: rest =>
    if c = '=' then
      match rest with
      | [] => []
      | c2 :: rs => if c2 = '=' then rs else c2 :: rs
    else c :: rest

/-- Reassemble bytes from six-bit groups: four groups give three bytes, a
trailing group of two or three gives one or two bytes (leftover bits
discarded, as in forgiving-base64). -/
def sextetsToBytes : List Nat → List Nat
  | s1 :: s2 :: s3 :: s4 :: rest =>
    (s1 * 4 + s2 / 16) :: (s2 % 16 * 16 + s3 / 4) :: (s3 % 4 * 64 + s4) ::
    sextetsToBytes rest
  | [s1, s2] => [s1 * 4 + s2 / 16]
  | [s1, s2, s3] => [s1 * 4 + s2 / 16, s2 % 16 * 16 + s3 / 4]
  | _ => []

/-- Decode every character through the base64 alphabet, failing on the
first character outside it. -/
def b64Decode : List Char → Option (List Nat)
  | [] => some []
  | c :: rest =>
    match b64Index c, b64Decode rest with
    | some v, some vs => some (v :: vs)
    | _, _ => none

/-- Forgiving-base64 decode on characters: remove ASCII whitespace, strip
up to two trailing `=` when the length is a multiple of four, reject a
remainder of one, then decode six-bit groups. -/
def atobChars (cs0 : List Char) : Option (List Nat) :=
  let cs1 := cs0.filter (fun c => !asciiWhitespace c)
  let cs2 :=
    if cs1.length % 4 = 0 then (stripPadAux cs1.reverse).reverse else cs1
  if cs2.length % 4 = 1 then none
  else (b64Decode cs2).map sextetsToBytes

/-- Model of `atob`; `none`-like failures raise `InvalidCharacterError`. -/
def atob (s : String) : Except String String :=
  match atobChars s.data with
  | none => Except.error "The string to be decoded is not correctly encoded."
  | some bytes => Except.ok (String.mk (bytes.map Char.ofNat))

-- ===========================================================================
-- Percent-encoding (models of encodeURIComponent / decodeURIComponent)
-- ===========================================================================

/-- The characters `encodeURIComponent` leaves unescaped:
ASCII letters, digits, and - _ . ! ~ * ' ( ). -/
def uriUnreservedChar (c : Char) : Bool :=
  let n := c.toNat
  (65 ≤ n && n ≤ 90) || (97 ≤ n && n ≤ 122) || (48 ≤ n && n ≤ 57) ||
  n == 45 || n == 95 || n == 46 || n == 33 || n == 126 || n == 42 ||
  n == 39 || n == 40 || n == 41

/-- Uppercase hexadecimal digit, as emitted by `encodeURIComponent`. -/
def hexDigitUpper (n : Nat) : Char :=
  Char.ofNat (if n < 10 then 48 + n else 55 + n)

/-- UTF-8 encoding of one Unicode scalar value. -/
def utf8Bytes (c : Char) : List Nat :=
  let n := c.toNat
  if n < 0x80 then [n]
  else if n < 0x800 then [0xC0 + n / 64, 0x80 + n % 64]
  else if n < 0x10000 then
    [0xE0 + n / 4096, 0x80 + n / 64 % 64, 0x80 + n % 64]
  else
    [0xF0 + n / 262144, 0x80 + n / 4096 % 64, 0x80 + n / 64 % 64,
     0x80 + n % 64]

/-- The characters `encodeURIComponent` emits for one input character. -/
def pctEncodeChar (c : Char) : List Char :=
  if uriUnreservedChar c then [c]
  else
    ((utf8Bytes c).map
      (fun b => ['%', hexDigitUpper (b / 16), hexDigitUpper (b % 16)])).flatten

/-- Model of `encodeURIComponent`.  The JavaScript function throws only on
a lone surrogate, and strings of Unicode scalar values contain none, so the
model is total. -/
def encodeURIComponent (s : String) : String :=
  String.mk ((s.data.map pctEncodeChar).flatten)

/-- Read two hexadecimal digits. -/
def readHex2 : List Char → Option (Nat × List Char)
  | h1 :: h2 :: rest =>
    match hexVal h1, hexVal h2 with
    | some v1, some v2 => some (v1 * 16 + v2, rest)
    | _, _ => none
  | _ => none

/-- Read a percent-escaped UTF-8 continuation byte, returning its six
payload bits. -/
def readCont (cs : List Char) : Option (Nat × List Char) :=
  match cs with
  | '%' :: rest =>
    match readHex2 rest with
    | some (b, r) => if 0x80 ≤ b ∧ b ≤ 0xBF then some (b - 0x80, r) else none
    | none => none
  | _ => none

/-- Fuel-bounded body of `decodeURIComponent` (the fuel, set to the input
length, bounds the number of produced characters and is never exhausted).
Follows the ECMAScript Decode algorithm: literal characters pass through,
`%`-escapes are decoded as strict UTF-8 (shortest form, no surrogates, at
most U+10FFFF). -/
def decodeAux : Nat → List Char → Option (List Char)
  | _, [] => some []
  | 0, _ :: _ => none
  | fuel + 1, c :: rest =>
    if c = '%' then
      match readHex2 rest with
      | none => none
      | some (b, r1) =>
        if b < 0x80 then (decodeAux fuel r1).map (fun l => Char.ofNat b :: l)
        else if 0xC0 ≤ b ∧ b ≤ 0xDF then
          match readCont r1 with
          | none => none
          | some (v1, r2) =>
            let cp := (b - 0xC0) * 64 + v1
            if cp < 0x80 then none
            else (decodeAux fuel r2).map (fun l => Char.ofNat cp :: l)
        else if 0xE0 ≤ b ∧ b ≤ 0xEF then
          match readCont r1 with
          | none => none
          | some (v1, r2) =>
            match readCont r2 with
            | none => none
            | some (v2, r3) =>
              let cp := (b - 0xE0) * 4096 + v1 * 64 + v2
              if cp < 0x800 ∨ (0xD800 ≤ cp ∧ cp ≤ 0xDFFF) then none
              else (decodeAux fuel r3).map (fun l => Char.ofNat cp :: l)
        else if 0xF0 ≤ b ∧ b ≤ 0xF7 then
          match readCont r1 with
          | none => none
          | some (v1, r2) =>
            match readCont r2 with
            | none => none
            | some (v2, r3) =>
              match readCont r3 with
              | none => none
              | some (v3, r4) =>
                let cp := (b - 0xF0) * 262144 + v1 * 4096 + v2 * 64 + v3
                if cp < 0x10000 ∨ 0x10FFFF < cp then none
                else (decodeAux fuel r4).map (fun l => Char.ofNat cp :: l)
        else none
    else (decodeAux fuel rest).map (fun l => c :: l)

/-- Model of `decodeURIComponent`; failure raises `URIError`. -/
def decodeURIComponent (s : String) : Except String String :=
  match decodeAux s.data.length s.data with
  | some cs => Except.ok (String.mk cs)
  | none => Except.error "URI malformed"

-- ===========================================================================
-- parseAgentFileUri and the resolveAttestation agent-file step
-- ===========================================================================

/-- The response fields of `fetch` consumed by the source: `ok`, `status`
and the body text. -/
structure HttpResponse where
  ok : Bool
  status : Nat
  body : String

/-- Embedding of `parseAgentFileUri` (attestation.ts lines 25-47).  The
network is modelled by the function `fetch` from request URL to response;
the first component of the result lists the URLs actually fetched (empty
for the `data:` paths), the second is the returned text or the thrown
error's message. -/
def parseAgentFileUri (fetch : String → HttpResponse) (uri : String) :
    List String × Except String String :=
  if jsStartsWith uri "data:" then
    let commaIdx := jsIndexOf uri ","
    let meta := jsSlice uri 5 commaIdx
    let payload := jsSliceFrom uri (commaIdx + 1)
    if jsIncludes meta "base64" then ([], atob payload)
    else ([], decodeURIComponent payload)
  else if jsStartsWith uri "ipfs://" then
    let cid := jsSliceFrom uri 7
    let url := "https://ipfs.io/ipfs/" ++ cid
    let resp := fetch url
    if !resp.ok then
      ([url],
       Except.error ("Agent file fetch failed (" ++ toString resp.status ++ ")"))
    else ([url], Except.ok resp.body)
  else
    let resp := fetch uri
    if !resp.ok then
      ([uri],
       Except.error ("Agent file fetch failed (" ++ toString resp.status ++ ")"))
    else ([uri], Except.ok resp.body)

/-- The catch handler of the agent-file closure in `resolveAttestation`
(InteropAddress.tsx): map a thrown error's message to the reported
message. -/
def agentFileErrorMessage (err : String) : String :=
  if jsIncludes err "reverted" then "Agent not found in registry"
  else if jsIncludes err "not valid JSON" then err
  else if jsIncludes err "fetch failed" then err
  else "Agent file check failed"

/-- Embedding of the agent-file closure of `resolveAttestation`
(InteropAddress.tsx lines 348-389), without the cooperative-cancellation
early returns (no claim concerns an aborted request).  The registry
`tokenURI` read is a parameter: `Except.error e` models a rejected
contract read with message `e`.  The second component again lists the URLs
fetched.  A non-string `endpoint` value would make `endpoint.toLowerCase`
throw a `TypeError`, caught by the same handler. -/
def resolveAgentFile (tokenURIRes : Except String String)
    (fetch : String → HttpResponse) (toLower : String → String)
    (trimmedName : String) : AgentFileResult × List String :=
  match tokenURIRes with
  | Except.error e => (AgentFileResult.error (agentFileErrorMessage e), [])
  | Except.ok uri =>
    if uri = "" then (AgentFileResult.error "No agent URI returned", [])
    else
      match parseAgentFileUri fetch uri with
      | (trace, Except.error e) =>
        (AgentFileResult.error (agentFileErrorMessage e), trace)
      | (trace, Except.ok jsonText) =>
        match extractEnsEndpoint jsonText with
        | none =>
          if jsStartsWith (jsTrimStart jsonText) "\x7b" then
            (AgentFileResult.notSet, trace)
          else
            (AgentFileResult.error
              (agentFileErrorMessage "Agent file is not valid JSON"), trace)
        | some (Json.str ep) =>
          (checkAgentFile toLower (some ep) trimmedName, trace)
        | some _ =>
          (AgentFileResult.error
            (agentFileErrorMessage "endpoint.toLowerCase is not a function"),
           trace)

/-- The characters of a base64 encoding without its padding (proof-side
companion of `btoaBytes`). -/
def rawEnc : List Nat → List Char
  | [] => []
  | [b1] => [b64Char (b1 / 4), b64Char (b1 % 4 * 16)]
  | [b1, b2] =>
    [b64Char (b1 / 4), b64Char (b1 % 4 * 16 + b2 / 16), b64Char (b2 % 16 * 4)]
  | b1 :: b2 :: b3 :: rest =>
    b64Char (b1 / 4) :: b64Char (b1 % 4 * 16 + b2 / 16) ::
    b64Char (b2 % 16 * 4 + b3 / 64) :: b64Char (b3 % 64) :: rawEnc rest

/-- The six-bit groups of a base64 encoding (proof-side companion of
`btoaBytes` and `rawEnc`). -/
def rawSextets : List Nat → List Nat
  | [] => []
  | [b1] => [b1 / 4, b1 % 4 * 16]
  | [b1, b2] => [b1 / 4, b1 % 4 * 16 + b2 / 16, b2 % 16 * 4]
  | b1 :: b2 :: b3 :: rest =>
    b1 / 4 :: (b1 % 4 * 16 + b2 / 16) :: (b2 % 16 * 4 + b3 / 64) ::
    b3 % 64 :: rawSextets rest

-- ===========================================================================
-- Theorems
-- ===========================================================================

/-- C4: getVerificationStatus realizes the §4.5 truth table exactly for all
four boolean input combinations. -/
theorem getVerificationStatus_table :
    getVerificationStatus true true =
      { label := "Closed — verified in both directions", closed := true } ∧
    getVerificationStatus true false =
      { label := "ENS → Agent only", closed := false } ∧
    getVerificationStatus false true =
      { label := "Agent → ENS only", closed := false } ∧
    getVerificationStatus false false =
      { label := "Open — no verification in either direction", closed := false } := by
  refine ⟨rfl, rfl, rfl, rfl⟩

/-- C5: buildTextRecordKey concatenates its two opaque arguments literally
into the fixed template, with no validation and no error condition; in
particular buildTextRecordKey "R" "A" = "agent-registration[R][A]". -/
theorem buildTextRecordKey_format :
    (∀ registryId agentId : String,
      buildTextRecordKey registryId agentId =
        "agent-registration[" ++ registryId ++ "][" ++ agentId ++ "]") ∧
    buildTextRecordKey "R" "A" = "agent-registration[R][A]" := by
  exact ⟨fun _ _ => rfl, rfl⟩

/-- C3: for every host lowercase function (in particular the real
`String.prototype.toLowerCase` with its full Unicode case conversion),
checkAgentFile maps an absent endpoint to `not-set`; a present endpoint to
`valid` (carrying the original non-lowercased endpoint) exactly when the
two strings agree after lowercasing, and otherwise to `invalid` (also
carrying the original endpoint); and it never produces an `error`
result. -/
theorem checkAgentFile_spec :
    (∀ (toLower : String → String) (ensName : String),
      checkAgentFile toLower none ensName = AgentFileResult.notSet) ∧
    (∀ (toLower : String → String) (endpoint ensName : String),
      toLower endpoint = toLower ensName →
      checkAgentFile toLower (some endpoint) ensName =
        AgentFileResult.valid endpoint) ∧
    (∀ (toLower : String → String) (endpoint ensName : String),
      toLower endpoint ≠ toLower ensName →
      checkAgentFile toLower (some endpoint) ensName =
        AgentFileResult.invalid endpoint) ∧
    (∀ (toLower : String → String) (endpoint : Option String)
      (ensName message : String),
      checkAgentFile toLower endpoint ensName ≠
        AgentFileResult.error message) := by
  refine ⟨fun _ _ => rfl, ?_, ?_, ?_⟩
  · intro tl ep nm h
    simp [checkAgentFile, h]
  · intro tl ep nm h
    simp [checkAgentFile, h]
  · intro tl ep nm msg
    match ep with
    | none => simp [checkAgentFile]
    | some e =>
      simp only [checkAgentFile]
      split <;> simp

/-- Witness for checkAgentFile_spec at concrete inputs — matching the unit
tests of attestation.test.ts — with the lowercase parameter instantiated
at `asciiToLower`, which agrees with the host lowercase on these ASCII
inputs. -/
theorem checkAgentFile_spec_witness :
    checkAgentFile asciiToLower none "alice.eth" = AgentFileResult.notSet ∧
    checkAgentFile asciiToLower (some "Alice.ETH") "alice.eth" =
      AgentFileResult.valid "Alice.ETH" ∧
    checkAgentFile asciiToLower (some "bob.eth") "alice.eth" =
      AgentFileResult.invalid "bob.eth" ∧
    checkAgentFile asciiToLower (some "bob.eth") "alice.eth" ≠
      AgentFileResult.error "x" := by
  refine ⟨checkAgentFile_spec.1 asciiToLower "alice.eth",
    checkAgentFile_spec.2.1 asciiToLower "Alice.ETH" "alice.eth" (by decide),
    checkAgentFile_spec.2.2.1 asciiToLower "bob.eth" "alice.eth" (by decide),
    checkAgentFile_spec.2.2.2 asciiToLower (some "bob.eth") "alice.eth" "x"⟩

/-- Two strings are equal exactly when their character lists are equal. -/
theorem string_eq_iff_data (s t : String) : s = t ↔ s.data = t.data := by
  constructor
  · intro h
    exact congrArg String.data h
  · intro h
    cases s with
    | mk d1 =>
      cases t with
      | mk d2 =>
        simp only [String.data] at h
        exact congrArg String.mk h

/-- Splitting at a separator character that occurs in neither left part is
unambiguous. -/
theorem append_sep_inj (c : Char) :
    ∀ xs1 xs2 ys1 ys2 : List Char, c ∉ xs1 → c ∉ xs2 →
    xs1 ++ c :: ys1 = xs2 ++ c :: ys2 → xs1 = xs2 ∧ ys1 = ys2 := by
  intro xs1
  induction xs1 with
  | nil =>
    intro xs2 ys1 ys2 _ h2 h
    cases xs2 with
    | nil => simpa using h
    | cons b bs =>
      simp only [List.nil_append, List.cons_append, List.cons.injEq] at h
      exact absurd (h.1 ▸ List.mem_cons_self b bs) h2
  | cons a as ih =>
    intro xs2 ys1 ys2 h1 h2 h
    cases xs2 with
    | nil =>
      simp only [List.cons_append, List.nil_append, List.cons.injEq] at h
      exact absurd (h.1 ▸ List.mem_cons_self a as) h1
    | cons b bs =>
      simp only [List.cons_append, List.cons.injEq] at h
      obtain ⟨rfl, htl⟩ := h
      have h1' : c ∉ as := fun hm => h1 (List.mem_cons_of_mem _ hm)
      have h2' : c ∉ bs := fun hm => h2 (List.mem_cons_of_mem _ hm)
      obtain ⟨he, hy⟩ := ih bs ys1 ys2 h1' h2' htl
      exact ⟨by rw [he], hy⟩

/-- C6: buildTextRecordKey is injective on pairs of identifiers that
contain no ']' character: equal keys imply equal registry and agent
identifiers. -/
theorem buildTextRecordKey_injective :
    ∀ r1 a1 r2 a2 : String,
    ']' ∉ r1.data → ']' ∉ a1.data → ']' ∉ r2.data → ']' ∉ a2.data →
    buildTextRecordKey r1 a1 = buildTextRecordKey r2 a2 →
    r1 = r2 ∧ a1 = a2 := by
  intro r1 a1 r2 a2 hr1 _ hr2 _ h
  rw [string_eq_iff_data] at h
  simp only [buildTextRecordKey, String.data_append] at h
  rw [List.append_assoc, List.append_assoc, List.append_assoc,
    List.append_assoc] at h
  have h' := List.append_cancel_left h
  have hsep : r1.data ++ (']' :: ('[' :: (a1.data ++ [']']))) =
      r2.data ++ (']' :: ('[' :: (a2.data ++ [']']))) := by
    simpa using h'
  obtain ⟨hr, hy⟩ := append_sep_inj ']' r1.data r2.data _ _ hr1 hr2 hsep
  simp only [List.cons.injEq, true_and] at hy
  have ha : a1.data = a2.data := List.append_cancel_right hy
  exact ⟨(string_eq_iff_data r1 r2).mpr hr, (string_eq_iff_data a1 a2).mpr ha⟩

/-- Witness for buildTextRecordKey_injective at the concrete pair
("R","A") against itself. -/
theorem buildTextRecordKey_injective_witness :
    ("R" : String) = "R" ∧ ("A" : String) = "A" :=
  buildTextRecordKey_injective "R" "A" "R" "A"
    (by decide) (by decide) (by decide) (by decide) rfl

/-- C1: extractEnsEndpoint returns absent when the trimStart-trimmed text
does not start with a brace or bracket; returns absent when JSON parsing
fails; on a successful parse (with the guard passed) it returns exactly the
spec-side lookup `claimEnsLookup` — the `endpoint` field of the first
`services` element whose `name` is exactly "ENS", absent otherwise; and on
concrete inputs: a lowercase "ens" or capitalised "Ens" entry never
matches, an "ENS" entry is found even after a non-matching "ens" entry,
and a top-level `endpoints` field is ignored. -/
theorem extractEnsEndpoint_spec :
    (∀ t : String,
      jsStartsWith (jsTrimStart t) "\x7b" = false →
      jsStartsWith (jsTrimStart t) "[" = false →
      extractEnsEndpoint t = none) ∧
    (∀ t : String, jsonParse t = none → extractEnsEndpoint t = none) ∧
    (∀ (t : String) (v : Json), jsonParse t = some v →
      (jsStartsWith (jsTrimStart t) "\x7b" = true ∨
        jsStartsWith (jsTrimStart t) "[" = true) →
      extractEnsEndpoint t = claimEnsLookup v) ∧
    extractEnsEndpoint
      "\x7b\"services\":[\x7b\"name\":\"ens\",\"endpoint\":\"bob.eth\"\x7d]\x7d"
      = none ∧
    extractEnsEndpoint
      "\x7b\"services\":[\x7b\"name\":\"Ens\",\"endpoint\":\"bob.eth\"\x7d]\x7d"
      = none ∧
    extractEnsEndpoint
      "\x7b\"services\":[\x7b\"name\":\"ens\",\"endpoint\":\"a.eth\"\x7d,\x7b\"name\":\"ENS\",\"endpoint\":\"b.eth\"\x7d]\x7d"
      = some (Json.str "b.eth") ∧
    extractEnsEndpoint
      "\x7b\"endpoints\":[\x7b\"name\":\"ENS\",\"endpoint\":\"x\"\x7d]\x7d"
      = none := by
  refine ⟨?_, ?_, ?_, rfl, rfl, rfl, rfl⟩
  · intro t h1 h2
    simp only [extractEnsEndpoint, h1, h2, Bool.not_false, Bool.and_self,
      if_true]
  · intro t h
    simp only [extractEnsEndpoint, h]
    split <;> rfl
  · intro t v hp hg
    have hcond : (!(jsStartsWith (jsTrimStart t) "\x7b") &&
        !(jsStartsWith (jsTrimStart t) "[")) = false := by
      rcases hg with hg | hg <;> simp [hg]
    simp only [extractEnsEndpoint, hp, hcond, Bool.false_eq_true, if_false]
    cases v with
    | null => rfl
    | bool b => rfl
    | num r => rfl
    | str s => rfl
    | arr elems => rfl
    | obj fields =>
      simp only [jsGetOpt, claimEnsLookup]
      rcases hs : objGet fields "services" with _ | sv
      · simp [hs]
      · rcases sv with _ | b | r | s | elems | fs
        · simp [hs]
        · simp [hs]
        · simp [hs]
        · simp [hs]
        · simp only [hs]
          rcases hf : elems.find? isEnsService with _ | s
          · simp [hf]
          · rcases s with _ | b | r | st | el | fs2 <;> simp [hf, jsGetOpt]
        · simp [hs]

/-- Witness for extractEnsEndpoint_spec: each hypothesis-bearing conjunct
applied at a concrete input. -/
theorem extractEnsEndpoint_spec_witness :
    extractEnsEndpoint "not json at all" = none ∧
    extractEnsEndpoint "[1" = none ∧
    extractEnsEndpoint
      "\x7b\"services\":[\x7b\"name\":\"ENS\",\"endpoint\":\"alice.eth\"\x7d]\x7d"
      = claimEnsLookup
        (Json.obj [("services",
          Json.arr [Json.obj [("name", Json.str "ENS"),
            ("endpoint", Json.str "alice.eth")]])]) :=
  ⟨extractEnsEndpoint_spec.1 "not json at all" rfl rfl,
   extractEnsEndpoint_spec.2.1 "[1" rfl,
   extractEnsEndpoint_spec.2.2.1 _ _ rfl (Or.inl rfl)⟩

/-- C10: when the registry tokenURI read completes with an empty (falsy)
URI, the agent-file result is the error "No agent URI returned", and no
fetch (and hence no extraction or check) is attempted: the trace is empty
and the outcome is the same for every fetch function. -/
theorem resolveAgentFile_emptyUri :
    ∀ (fetch : String → HttpResponse) (toLower : String → String)
      (trimmedName : String),
      resolveAgentFile (Except.ok "") fetch toLower trimmedName =
        (AgentFileResult.error "No agent URI returned", []) := by
  intro fetch toLower trimmedName
  rfl

/-- The results of parseArrRest and parseArrElems are always arrays. -/
theorem parseArr_shape : ∀ fuel : Nat,
    (∀ cs v rest, parseArrRest fuel cs = some (v, rest) →
      ∃ elems, v = Json.arr elems) ∧
    (∀ cs acc v rest, parseArrElems fuel cs acc = some (v, rest) →
      ∃ elems, v = Json.arr elems) := by
  intro fuel
  induction fuel with
  | zero =>
    refine ⟨?_, ?_⟩
    · intro cs v rest h
      simp [parseArrRest] at h
    · intro cs acc v rest h
      simp [parseArrElems] at h
  | succ n ih =>
    refine ⟨?_, ?_⟩
    · intro cs v rest h
      simp only [parseArrRest] at h
      split at h
      · exact ⟨[], by injection h with h1; exact (congrArg Prod.fst h1).symm⟩
      · exact ih.2 _ _ _ _ h
    · intro cs acc v rest h
      simp only [parseArrElems] at h
      rcases hv : parseValue n cs with _ | p
      · rw [hv] at h
        simp at h
      · rw [hv] at h
        rcases p with ⟨v0, r1⟩
        simp only [bind, Option.bind] at h
        split at h
        · exact ih.2 _ _ _ _ h
        · injection h with h1
          injection h1 with hva hr
          exact ⟨(v0 :: acc).reverse, hva.symm⟩
        · exact absurd h (by simp)

/-- A parse producing a JSON object must have seen an opening brace as the
first character after insignificant whitespace. -/
theorem parseValue_obj_head :
    ∀ (fuel : Nat) (cs : List Char) (fs : List (String × Json))
      (rest : List Char),
      parseValue fuel cs = some (Json.obj fs, rest) →
      ∃ r, skipWs cs = '\x7b' :: r := by
  intro fuel cs fs rest h
  match fuel with
  | 0 => simp [parseValue] at h
  | n + 1 =>
    simp only [parseValue] at h
    rcases hsw : skipWs cs with _ | ⟨c, r⟩
    · rw [hsw] at h
      simp at h
    · rw [hsw] at h
      dsimp only at h
      by_cases hc : c = '\x7b'
      · exact ⟨r, by rw [hc]⟩
      · rw [if_neg hc] at h
        exfalso
        by_cases hc2 : c = '['
        · rw [if_pos hc2] at h
          obtain ⟨elems, he⟩ := (parseArr_shape n).1 _ _ _ h
          simp at he
        · rw [if_neg hc2] at h
          by_cases hc3 : c = '"'
          · rw [if_pos hc3] at h
            rcases hsb : parseStringBody r with _ | p <;> rw [hsb] at h <;>
              simp at h
          · rw [if_neg hc3] at h
            by_cases hc4 : c = 't'
            · rw [if_pos hc4] at h
              split at h <;> simp at h
            · rw [if_neg hc4] at h
              by_cases hc5 : c = 'f'
              · rw [if_pos hc5] at h
                split at h <;> simp at h
              · rw [if_neg hc5] at h
                by_cases hc6 : c = 'n'
                · rw [if_pos hc6] at h
                  split at h <;> simp at h
                · rw [if_neg hc6] at h
                  rcases hnum : parseNumber (c :: r) with _ | p <;>
                    rw [hnum] at h <;> simp at h

/-- Dropping with a weaker predicate cannot drop less, provided the first
survivor of the stronger predicate also fails the weaker one. -/
theorem dropWhile_extend (p q : Char → Bool)
    (himp : ∀ c, p c = true → q c = true) :
    ∀ (cs r : List Char) (c0 : Char), cs.dropWhile p = c0 :: r →
      q c0 = false → cs.dropWhile q = c0 :: r := by
  intro cs
  induction cs with
  | nil =>
    intro r c0 h
    simp [List.dropWhile] at h
  | cons a as ih =>
    intro r c0 h hq
    by_cases hp : p a = true
    · rw [List.dropWhile_cons_of_pos hp] at h
      rw [List.dropWhile_cons_of_pos (himp a hp)]
      exact ih r c0 h hq
    · rw [List.dropWhile_cons_of_neg (by simpa using hp)] at h
      injection h with h1 h2
      subst h1
      rw [List.dropWhile_cons_of_neg (by simp [hq]), h2]

/-- A successful jsonParse yielding an object means the trimStart-trimmed
text starts with an opening brace. -/
theorem jsonParse_obj_brace (t : String) (fs : List (String × Json)) :
    jsonParse t = some (Json.obj fs) →
    jsStartsWith (jsTrimStart t) "\x7b" = true := by
  intro h
  simp only [jsonParse] at h
  rcases hv : parseValue (4 * t.data.length + 4) t.data with _ | ⟨v, rest⟩
  · rw [hv] at h
    simp at h
  · rw [hv] at h
    dsimp only at h
    split at h
    · injection h with h1
      subst h1
      obtain ⟨r, hr⟩ := parseValue_obj_head _ _ _ _ hv
      have hq : jsWhitespace '\x7b' = false := by decide
      have himp : ∀ c, isJsonWs c = true → jsWhitespace c = true := by
        intro c hc
        simp only [isJsonWs, Bool.or_eq_true, beq_iff_eq] at hc
        rcases hc with ((h1 | h1) | h1) | h1 <;> subst h1 <;> decide
      have hdrop := dropWhile_extend isJsonWs jsWhitespace himp t.data r
        '\x7b' hr hq
      simp [jsStartsWith, jsTrimStart, hdrop]
    · simp at h

/-- C2 (amended): in the orchestration, a fetched text with no extracted
endpoint is classified by its leading character, not by actual parse
success: a successfully parsed JSON object with no ENS service yields
`not-set`; more generally any endpoint-less text whose trimmed form starts
with a brace — including text that fails to parse — yields `not-set`,
while endpoint-less text whose trimmed form does not start with a brace
yields the error "Agent file is not valid JSON". -/
theorem resolveAgentFile_parse_asymmetry :
    ∀ (fetch : String → HttpResponse) (toLower : String → String)
      (uri trimmedName jsonText : String),
      uri ≠ "" →
      (parseAgentFileUri fetch uri).2 = Except.ok jsonText →
      ((∀ fs, jsonParse jsonText = some (Json.obj fs) →
          extractEnsEndpoint jsonText = none →
          (resolveAgentFile (Except.ok uri) fetch toLower trimmedName).1 =
            AgentFileResult.notSet) ∧
       (extractEnsEndpoint jsonText = none →
          jsStartsWith (jsTrimStart jsonText) "\x7b" = true →
          (resolveAgentFile (Except.ok uri) fetch toLower trimmedName).1 =
            AgentFileResult.notSet) ∧
       (extractEnsEndpoint jsonText = none →
          jsStartsWith (jsTrimStart jsonText) "\x7b" = false →
          (resolveAgentFile (Except.ok uri) fetch toLower trimmedName).1 =
            AgentFileResult.error "Agent file is not valid JSON")) := by
  intro fetch toLower uri trimmedName jsonText hne hok
  rcases hsplit : parseAgentFileUri fetch uri with ⟨tr, res⟩
  rw [hsplit] at hok
  dsimp only at hok
  subst hok
  have key : extractEnsEndpoint jsonText = none →
      (resolveAgentFile (Except.ok uri) fetch toLower trimmedName).1 =
        (if jsStartsWith (jsTrimStart jsonText) "\x7b" then
          AgentFileResult.notSet
        else AgentFileResult.error "Agent file is not valid JSON") := by
    intro hext
    simp only [resolveAgentFile, if_neg hne, hsplit, hext]
    split <;> rfl
  refine ⟨?_, ?_, ?_⟩
  · intro fs hj hext
    rw [key hext, if_pos (jsonParse_obj_brace _ _ hj)]
  · intro hext hb
    rw [key hext, if_pos hb]
  · intro hext hb
    rw [key hext, if_neg (by simp [hb])]

/-- Witness for resolveAgentFile_parse_asymmetry: a parsed object with no
ENS service is reported `not-set`, and non-JSON-looking text is reported
as the distinguishable error. -/
theorem resolveAgentFile_parse_asymmetry_witness :
    (resolveAgentFile (Except.ok "https://a.example/x")
        (fun _ => { ok := true, status := 200, body := "\x7b\"a\":1\x7d" })
        asciiToLower "alice.eth").1 = AgentFileResult.notSet ∧
    (resolveAgentFile (Except.ok "https://a.example/x")
        (fun _ => { ok := true, status := 200, body := "not json" })
        asciiToLower "alice.eth").1 =
      AgentFileResult.error "Agent file is not valid JSON" := by
  constructor
  · exact (resolveAgentFile_parse_asymmetry
      (fun _ => { ok := true, status := 200, body := "\x7b\"a\":1\x7d" })
      asciiToLower "https://a.example/x" "alice.eth" "\x7b\"a\":1\x7d"
      (by decide) rfl).1 [("a", Json.num "1")] rfl rfl
  · exact (resolveAgentFile_parse_asymmetry
      (fun _ => { ok := true, status := 200, body := "not json" })
      asciiToLower "https://a.example/x" "alice.eth" "not json"
      (by decide) rfl).2.2 rfl rfl

/-- Counterexample to C2 as stated: the text "\x7b" fails JSON parsing,
yet the orchestration reports `not-set` for it — not an `error` — because
the classification looks only at the leading character. -/
theorem resolveAgentFile_unparseable_cex :
    jsonParse "\x7b" = none ∧
    (resolveAgentFile (Except.ok "https://agent.example/file.json")
        (fun _ => { ok := true, status := 200, body := "\x7b" })
        asciiToLower "alice.eth").1 = AgentFileResult.notSet ∧
    AgentFileResult.notSet ≠
      AgentFileResult.error "Agent file is not valid JSON" := by
  refine ⟨rfl, rfl, by simp⟩

/-- startsWith only inspects a prefix of sufficient length. -/
theorem jsStartsWith_append_left (s t p : String)
    (h : p.data.length ≤ s.data.length) :
    jsStartsWith (s ++ t) p = jsStartsWith s p := by
  unfold jsStartsWith
  rw [String.data_append, List.take_append_of_le_length h]

/-- Slicing from the length of the left part of a concatenation yields the
right part. -/
theorem jsSliceFrom_append (s t : String) :
    jsSliceFrom (s ++ t) ((s.data.length : Nat) : Int) = t := by
  simp only [jsSliceFrom, jsSlice, String.data_append, List.length_append]
  rw [if_neg (by omega), if_neg (by omega)]
  rw [min_self, min_eq_left (by push_cast; omega)]
  have h1 : (((s.data.length + t.data.length : Nat) : Int)).toNat =
      s.data.length + t.data.length := by omega
  have h2 : ((s.data.length : Nat) : Int).toNat = s.data.length := by omega
  rw [h1, h2]
  rw [show s.data.length + t.data.length = (s.data ++ t.data).length by
    simp, List.take_length, List.drop_left]

/-- A slice starting at zero is the whole string. -/
theorem jsSliceFrom_zero (s : String) : jsSliceFrom s 0 = s := by
  simp only [jsSliceFrom, jsSlice]
  rw [if_neg (by omega), if_neg (by omega), min_eq_left (by omega), min_self]
  have h1 : ((s.data.length : Nat) : Int).toNat = s.data.length := by omega
  rw [h1, List.take_length]
  rfl

/-- An explicit occurrence makes jsIndexOfAux succeed. -/
theorem jsIndexOfAux_isSome (sub ys : List Char) :
    ∀ (xs : List Char) (i : Nat),
      (jsIndexOfAux (xs ++ (sub ++ ys)) sub i).isSome = true := by
  intro xs
  induction xs with
  | nil =>
    intro i
    cases sub with
    | nil =>
      cases ys with
      | nil => simp [jsIndexOfAux]
      | cons c r => simp [jsIndexOfAux]
    | cons s ss =>
      simp only [List.nil_append, jsIndexOfAux, List.append_eq]
      rw [show s :: (ss ++ ys) = (s :: ss) ++ ys from rfl, List.take_left]
      simp
  | cons x xs ih =>
    intro i
    simp only [List.cons_append, jsIndexOfAux]
    split
    · rfl
    · exact ih (i + 1)

/-- A string containing `m` between two others includes `m`. -/
theorem jsIncludes_append (a m b : String) :
    jsIncludes (a ++ m ++ b) m = true := by
  simp only [jsIncludes, String.data_append, List.append_assoc]
  exact jsIndexOfAux_isSome m.data b.data a.data 0

/-- C8: an `ipfs://cid` URI is fetched against exactly
`https://ipfs.io/ipfs/cid`; and on both the ipfs path and the direct
fallthrough path, an OK response yields the body while a non-OK response
yields an error whose message carries the HTTP status code. -/
theorem parseAgentFileUri_fetch_spec :
    (∀ (fetch : String → HttpResponse) (cid : String),
      (parseAgentFileUri fetch ("ipfs://" ++ cid)).1 =
        ["https://ipfs.io/ipfs/" ++ cid] ∧
      ((fetch ("https://ipfs.io/ipfs/" ++ cid)).ok = true →
        (parseAgentFileUri fetch ("ipfs://" ++ cid)).2 =
          Except.ok (fetch ("https://ipfs.io/ipfs/" ++ cid)).body) ∧
      ((fetch ("https://ipfs.io/ipfs/" ++ cid)).ok = false →
        (parseAgentFileUri fetch ("ipfs://" ++ cid)).2 =
          Except.error ("Agent file fetch failed (" ++
            toString (fetch ("https://ipfs.io/ipfs/" ++ cid)).status ++ ")") ∧
        jsIncludes
          ("Agent file fetch failed (" ++
            toString (fetch ("https://ipfs.io/ipfs/" ++ cid)).status ++ ")")
          (toString (fetch ("https://ipfs.io/ipfs/" ++ cid)).status) = true)) ∧
    (∀ (fetch : String → HttpResponse) (uri : String),
      jsStartsWith uri "data:" = false →
      jsStartsWith uri "ipfs://" = false →
      (parseAgentFileUri fetch uri).1 = [uri] ∧
      ((fetch uri).ok = true →
        (parseAgentFileUri fetch uri).2 = Except.ok (fetch uri).body) ∧
      ((fetch uri).ok = false →
        (parseAgentFileUri fetch uri).2 =
          Except.error ("Agent file fetch failed (" ++
            toString (fetch uri).status ++ ")") ∧
        jsIncludes
          ("Agent file fetch failed (" ++ toString (fetch uri).status ++ ")")
          (toString (fetch uri).status) = true)) := by
  constructor
  · intro fetch cid
    have hd : jsStartsWith ("ipfs://" ++ cid) "data:" = false := by
      rw [jsStartsWith_append_left _ _ _ (by decide)]
      decide
    have hi : jsStartsWith ("ipfs://" ++ cid) "ipfs://" = true := by
      rw [jsStartsWith_append_left _ _ _ (by decide)]
      decide
    have hcid : jsSliceFrom ("ipfs://" ++ cid) 7 = cid :=
      jsSliceFrom_append "ipfs://" cid
    simp only [parseAgentFileUri, hd, hi, hcid, Bool.false_eq_true, if_false,
      if_true]
    refine ⟨?_, ?_, ?_⟩
    · split <;> rfl
    · intro hok
      simp [hok]
    · intro hok
      refine ⟨by simp [hok], ?_⟩
      exact jsIncludes_append "Agent file fetch failed ("
        (toString (fetch ("https://ipfs.io/ipfs/" ++ cid)).status) ")"
  · intro fetch uri hd hi
    simp only [parseAgentFileUri, hd, hi, Bool.false_eq_true, if_false]
    refine ⟨?_, ?_, ?_⟩
    · split <;> rfl
    · intro hok
      simp [hok]
    · intro hok
      refine ⟨by simp [hok], ?_⟩
      exact jsIncludes_append "Agent file fetch failed ("
        (toString (fetch uri).status) ")"

/-- Witness for parseAgentFileUri_fetch_spec with a concrete cid, a
concrete OK response and a concrete 404 response. -/
theorem parseAgentFileUri_fetch_spec_witness :
    (parseAgentFileUri (fun _ => { ok := true, status := 200, body := "BODY" })
        ("ipfs://" ++ "QmFoo")).2 = Except.ok "BODY" ∧
    (parseAgentFileUri (fun _ => { ok := false, status := 404, body := "" })
        "https://example.com/agent.json").2 =
      Except.error "Agent file fetch failed (404)" ∧
    jsIncludes "Agent file fetch failed (404)" "404" = true := by
  have h := (parseAgentFileUri_fetch_spec.2
    (fun _ => { ok := false, status := 404, body := "" })
    "https://example.com/agent.json" rfl rfl).2.2 rfl
  exact ⟨(parseAgentFileUri_fetch_spec.1
    (fun _ => { ok := true, status := 200, body := "BODY" }) "QmFoo").2.1 rfl,
    h.1, h.2⟩

/-- C9: a `data:` URI with no comma is not rejected: the comma index is
-1, so the metadata is `uri.slice(5, -1)` and the payload is the whole
URI — when that metadata does not contain "base64" the result is
`decodeURIComponent` of the entire URI (prefix included), and when it does
the result is `atob` of the entire URI. -/
theorem parseAgentFileUri_data_noComma :
    ∀ (fetch : String → HttpResponse) (uri : String),
      jsStartsWith uri "data:" = true →
      jsIndexOf uri "," = -1 →
      (jsIncludes (jsSlice uri 5 (-1)) "base64" = true →
        parseAgentFileUri fetch uri = ([], atob uri)) ∧
      (jsIncludes (jsSlice uri 5 (-1)) "base64" = false →
        parseAgentFileUri fetch uri = ([], decodeURIComponent uri)) := by
  intro fetch uri hstart hidx
  have hpay : jsSliceFrom uri (-1 + 1) = uri := by
    norm_num [jsSliceFrom_zero]
  constructor
  · intro hb
    simp only [parseAgentFileUri]
    rw [if_pos hstart]
    simp only [hidx]
    rw [hpay, if_pos hb]
  · intro hb
    simp only [parseAgentFileUri]
    rw [if_pos hstart]
    simp only [hidx]
    rw [hpay, if_neg (by simp [hb])]

/-- Witness for parseAgentFileUri_data_noComma: the comma-free URI
"data:xyz" round-trips through decodeURIComponent whole. -/
theorem parseAgentFileUri_data_noComma_witness :
    parseAgentFileUri (fun _ => { ok := true, status := 200, body := "" })
      "data:xyz" = ([], decodeURIComponent "data:xyz") ∧
    decodeURIComponent "data:xyz" = Except.ok "data:xyz" :=
  ⟨(parseAgentFileUri_data_noComma
      (fun _ => { ok := true, status := 200, body := "" })
      "data:xyz" rfl rfl).2 rfl, rfl⟩

/-- For six-bit values, the base64 character decodes back to the value,
is not whitespace, and is not the padding character. -/
theorem b64Char_spec :
    ∀ n : Nat, n < 64 →
      b64Index (b64Char n) = some n ∧
      asciiWhitespace (b64Char n) = false ∧ b64Char n ≠ '=' := by
  decide

/-- No base64 output character is ASCII whitespace. -/
theorem b64Char_not_ws (n : Nat) : asciiWhitespace (b64Char n) = false := by
  by_cases h : n < 64
  · exact (b64Char_spec n h).2.1
  · unfold b64Char
    rw [List.getD_eq_default]
    · decide
    · have h64 : b64Alphabet.length = 64 := by decide
      omega

/-- No base64 output character is the padding character. -/
theorem b64Char_ne_pad (n : Nat) : b64Char n ≠ '=' := by
  by_cases h : n < 64
  · exact (b64Char_spec n h).2.2
  · unfold b64Char
    rw [List.getD_eq_default]
    · decide
    · have h64 : b64Alphabet.length = 64 := by decide
      omega

/-- btoa output length is always a multiple of four. -/
theorem btoaBytes_length_mod (bs : List Nat) :
    (btoaBytes bs).length % 4 = 0 := by
  induction bs using btoaBytes.induct with
  | case1 => rfl
  | case2 b1 => simp [btoaBytes]
  | case3 b1 b2 => simp [btoaBytes]
  | case4 b1 b2 b3 rest ih =>
    simp only [btoaBytes, List.length_cons]
    omega

/-- Forgiving-base64 whitespace removal leaves btoa output unchanged. -/
theorem btoaBytes_filter (bs : List Nat) :
    (btoaBytes bs).filter (fun c => !asciiWhitespace c) = btoaBytes bs := by
  have hpad : asciiWhitespace '=' = false := by decide
  induction bs using btoaBytes.induct with
  | case1 => rfl
  | case2 b1 => simp [btoaBytes, b64Char_not_ws, hpad]
  | case3 b1 b2 => simp [btoaBytes, b64Char_not_ws, hpad]
  | case4 b1 b2 b3 rest ih => simp [btoaBytes, b64Char_not_ws, ih]

/-- Padding stripping only looks at the first two characters, so it
commutes with appending on the right. -/
theorem stripPadAux_append (a b : Char) (rs qs : List Char) :
    stripPadAux (a :: b :: (rs ++ qs)) = stripPadAux (a :: b :: rs) ++ qs := by
  by_cases ha : a = '='
  · by_cases hb2 : b = '='
    · simp [stripPadAux, ha, hb2]
    · simp [stripPadAux, ha, hb2]
  · simp [stripPadAux, ha]

/-- Padding stripping commutes with appending after any two characters. -/
theorem stripPadAux_append2 (rs qs : List Char) (h : 2 ≤ rs.length) :
    stripPadAux (rs ++ qs) = stripPadAux rs ++ qs := by
  match rs with
  | [] => simp at h
  | [a] => simp at h
  | a :: b :: tr =>
    rw [show (a :: b :: tr) ++ qs = a :: b :: (tr ++ qs) from rfl]
    exact stripPadAux_append a b tr qs

/-- Nonempty input produces at least four characters of btoa output. -/
theorem btoaBytes_length_ge (bs : List Nat) (h : bs ≠ []) :
    4 ≤ (btoaBytes bs).length := by
  match bs with
  | [] => exact absurd rfl h
  | [b1] => simp [btoaBytes]
  | [b1, b2] => simp [btoaBytes]
  | b1 :: b2 :: b3 :: rest =>
    simp only [btoaBytes, List.length_cons]
    omega

/-- Stripping the padding from btoa output yields the unpadded base64
characters. -/
theorem strip_btoa (bs : List Nat) :
    (stripPadAux (btoaBytes bs).reverse).reverse = rawEnc bs := by
  induction bs using btoaBytes.induct with
  | case1 => rfl
  | case2 b1 => rfl
  | case3 b1 b2 =>
    have hz := b64Char_ne_pad (b2 % 16 * 4)
    simp [btoaBytes, rawEnc, stripPadAux, hz]
  | case4 b1 b2 b3 rest ih =>
    by_cases hrest : rest = []
    · subst hrest
      have hq := b64Char_ne_pad (b3 % 64)
      simp [btoaBytes, rawEnc, stripPadAux, hq]
    · have hexp : btoaBytes (b1 :: b2 :: b3 :: rest) =
          [b64Char (b1 / 4), b64Char (b1 % 4 * 16 + b2 / 16),
           b64Char (b2 % 16 * 4 + b3 / 64), b64Char (b3 % 64)] ++
          btoaBytes rest := by
        simp [btoaBytes]
      have hlen : 2 ≤ (btoaBytes rest).reverse.length := by
        rw [List.length_reverse]
        have := btoaBytes_length_ge rest hrest
        omega
      rw [hexp, List.reverse_append,
        stripPadAux_append2 _ _ hlen, List.reverse_append,
        List.reverse_reverse, ih]
      simp [rawEnc]

/-- Decoding the unpadded base64 characters yields the six-bit groups. -/
theorem rawEnc_mapM (bs : List Nat) (hb : ∀ b ∈ bs, b < 256) :
    b64Decode (rawEnc bs) = some (rawSextets bs) := by
  induction bs using rawEnc.induct with
  | case1 => rfl
  | case2 b1 =>
    have h1 : b1 < 256 := hb b1 (by simp)
    have e1 := (b64Char_spec (b1 / 4) (by omega)).1
    have e2 := (b64Char_spec (b1 % 4 * 16) (by omega)).1
    simp [rawEnc, rawSextets, b64Decode, e1, e2]
  | case3 b1 b2 =>
    have h1 : b1 < 256 := hb b1 (by simp)
    have h2 : b2 < 256 := hb b2 (by simp)
    have e1 := (b64Char_spec (b1 / 4) (by omega)).1
    have e2 := (b64Char_spec (b1 % 4 * 16 + b2 / 16) (by omega)).1
    have e3 := (b64Char_spec (b2 % 16 * 4) (by omega)).1
    simp [rawEnc, rawSextets, b64Decode, e1, e2, e3]
  | case4 b1 b2 b3 rest ih =>
    have h1 : b1 < 256 := hb b1 (by simp)
    have h2 : b2 < 256 := hb b2 (by simp)
    have h3 : b3 < 256 := hb b3 (by simp)
    have e1 := (b64Char_spec (b1 / 4) (by omega)).1
    have e2 := (b64Char_spec (b1 % 4 * 16 + b2 / 16) (by omega)).1
    have e3 := (b64Char_spec (b2 % 16 * 4 + b3 / 64) (by omega)).1
    have e4 := (b64Char_spec (b3 % 64) (by omega)).1
    have ih2 := ih (fun b hm => hb b (by simp [hm]))
    simp [rawEnc, rawSextets, b64Decode, e1, e2, e3, e4, ih2]

/-- Reassembling the six-bit groups recovers the original bytes. -/
theorem sextets_bytes (bs : List Nat) (hb : ∀ b ∈ bs, b < 256) :
    sextetsToBytes (rawSextets bs) = bs := by
  induction bs using rawSextets.induct with
  | case1 => rfl
  | case2 b1 =>
    simp only [rawSextets, sextetsToBytes, List.cons.injEq, and_true]
    omega
  | case3 b1 b2 =>
    have h2 : b2 < 256 := hb b2 (by simp)
    simp only [rawSextets, sextetsToBytes, List.cons.injEq, and_true]
    constructor
    · omega
    · omega
  | case4 b1 b2 b3 rest ih =>
    have h2 : b2 < 256 := hb b2 (by simp)
    have h3 : b3 < 256 := hb b3 (by simp)
    have ih2 := ih (fun b hm => hb b (by simp [hm]))
    simp only [rawSextets, sextetsToBytes, List.cons.injEq]
    refine ⟨by omega, by omega, by omega, ih2⟩

/-- The unpadded encoding never has length 1 modulo 4. -/
theorem rawEnc_length_mod (bs : List Nat) :
    ¬((rawEnc bs).length % 4 = 1) := by
  induction bs using rawEnc.induct with
  | case1 => simp [rawEnc]
  | case2 b1 => simp [rawEnc]
  | case3 b1 b2 => simp [rawEnc]
  | case4 b1 b2 b3 rest ih =>
    simp only [rawEnc, List.length_cons]
    omega

/-- Round trip at the character-list level: decoding btoa output yields
the original bytes. -/
theorem atobChars_btoa (bs : List Nat) (hb : ∀ b ∈ bs, b < 256) :
    atobChars (btoaBytes bs) = some bs := by
  simp only [atobChars]
  rw [btoaBytes_filter, if_pos (btoaBytes_length_mod bs), strip_btoa,
    if_neg (rawEnc_length_mod bs), rawEnc_mapM bs hb]
  simp [sextets_bytes bs hb]

/-- atob decodes btoa output back to the original binary string. -/
theorem atob_btoa (p b64s : String) (h : btoa p = Except.ok b64s) :
    atob b64s = Except.ok p := by
  unfold btoa at h
  by_cases hall : p.data.all (fun c => c.toNat < 256)
  · rw [if_pos hall] at h
    injection h with h1
    subst h1
    have hb : ∀ b ∈ p.data.map Char.toNat, b < 256 := by
      intro b hm
      rcases List.mem_map.mp hm with ⟨c, hc, rfl⟩
      exact of_decide_eq_true (List.all_eq_true.mp hall c hc)
    unfold atob
    rw [show (String.mk (btoaBytes (p.data.map Char.toNat))).data =
      btoaBytes (p.data.map Char.toNat) from rfl]
    rw [atobChars_btoa _ hb]
    simp [List.map_map, Function.comp_def, Char.ofNat_toNat]
  · rw [if_neg hall] at h
    simp at h

/-- The code point of a Char is below the surrogate range or above it and
below 0x110000. -/
theorem char_toNat_valid (c : Char) :
    c.toNat < 0xD800 ∨ (0xDFFF < c.toNat ∧ c.toNat < 0x110000) :=
  c.valid

/-- Uppercase hex digits decode to their values. -/
theorem hexVal_hexDigitUpper : ∀ n : Nat, n < 16 →
    hexVal (hexDigitUpper n) = some n := by
  decide

/-- Reading the two uppercase hex digits of a byte yields the byte. -/
theorem readHex2_pct (b : Nat) (hb : b < 256) (rest : List Char) :
    readHex2 (hexDigitUpper (b / 16) :: hexDigitUpper (b % 16) :: rest) =
      some (b, rest) := by
  have e1 := hexVal_hexDigitUpper (b / 16) (by omega)
  have e2 := hexVal_hexDigitUpper (b % 16) (by omega)
  simp only [readHex2, e1, e2, Option.some.injEq, Prod.mk.injEq]
  refine ⟨by omega, trivial⟩

/-- Reading a percent-escaped continuation byte yields its payload. -/
theorem readCont_pct (b : Nat) (hb1 : 0x80 ≤ b) (hb2 : b ≤ 0xBF)
    (rest : List Char) :
    readCont ('%' :: hexDigitUpper (b / 16) :: hexDigitUpper (b % 16) :: rest)
      = some (b - 0x80, rest) := by
  simp only [readCont, readHex2_pct b (by omega) rest]
  rw [if_pos ⟨hb1, hb2⟩]

/-- Decoding one encoded character from the front of the input consumes
exactly its escape sequence and produces the character. -/
theorem decodeAux_pct (c : Char) (fuel : Nat) (tail : List Char) :
    decodeAux (fuel + 1) (pctEncodeChar c ++ tail) =
      (decodeAux fuel tail).map (fun l => c :: l) := by
  by_cases hu : uriUnreservedChar c = true
  · have hne : ¬(c = '%') := by
      intro hc
      subst hc
      exact absurd hu (by decide)
    rw [show pctEncodeChar c ++ tail = c :: tail by simp [pctEncodeChar, hu]]
    simp only [decodeAux]
    rw [if_neg hne]
  · have hv := char_toNat_valid c
    have hu' : uriUnreservedChar c = false := by simpa using hu
    rcases Nat.lt_or_ge c.toNat 0x80 with h1 | h1
    · have hflat : pctEncodeChar c ++ tail =
          '%' :: hexDigitUpper (c.toNat / 16) ::
          hexDigitUpper (c.toNat % 16) :: tail := by
        simp [pctEncodeChar, hu', utf8Bytes, h1]
      have hnb : c.toNat < 256 := by omega
      rw [hflat]
      simp only [decodeAux, readHex2_pct c.toNat hnb tail, if_pos h1]
      simp [Char.ofNat_toNat]
    · rcases Nat.lt_or_ge c.toNat 0x800 with h2 | h2
      · have hA : ¬(c.toNat < 0x80) := by omega
        have hflat : pctEncodeChar c ++ tail =
            '%' :: hexDigitUpper ((0xC0 + c.toNat / 64) / 16) ::
            hexDigitUpper ((0xC0 + c.toNat / 64) % 16) ::
            ('%' :: hexDigitUpper ((0x80 + c.toNat % 64) / 16) ::
              hexDigitUpper ((0x80 + c.toNat % 64) % 16) :: tail) := by
          simp [pctEncodeChar, hu', utf8Bytes, hA, h2]
        have hb1 : ¬(0xC0 + c.toNat / 64 < 0x80) := by omega
        have hb2 : 0xC0 ≤ 0xC0 + c.toNat / 64 ∧ 0xC0 + c.toNat / 64 ≤ 0xDF :=
          ⟨by omega, by omega⟩
        have hcp : ¬((0xC0 + c.toNat / 64 - 0xC0) * 64 +
            (0x80 + c.toNat % 64 - 0x80) < 0x80) := by omega
        have hval : (0xC0 + c.toNat / 64 - 0xC0) * 64 +
            (0x80 + c.toNat % 64 - 0x80) = c.toNat := by omega
        rw [hflat]
        simp only [decodeAux,
          readHex2_pct (0xC0 + c.toNat / 64) (by omega),
          readCont_pct (0x80 + c.toNat % 64) (by omega) (by omega),
          if_neg hb1, if_pos hb2, if_neg hcp, hval]
        simp only [Char.ofNat_toNat, if_true]
        rw [if_neg hA]
      · rcases Nat.lt_or_ge c.toNat 0x10000 with h3 | h3
        · have hA : ¬(c.toNat < 0x80) := by omega
          have hB : ¬(c.toNat < 0x800) := by omega
          have hflat : pctEncodeChar c ++ tail =
              '%' :: hexDigitUpper ((0xE0 + c.toNat / 4096) / 16) ::
              hexDigitUpper ((0xE0 + c.toNat / 4096) % 16) ::
              ('%' :: hexDigitUpper ((0x80 + c.toNat / 64 % 64) / 16) ::
                hexDigitUpper ((0x80 + c.toNat / 64 % 64) % 16) ::
                ('%' :: hexDigitUpper ((0x80 + c.toNat % 64) / 16) ::
                  hexDigitUpper ((0x80 + c.toNat % 64) % 16) :: tail)) := by
            simp [pctEncodeChar, hu', utf8Bytes, hA, hB, h3]
          have hb1 : ¬(0xE0 + c.toNat / 4096 < 0x80) := by omega
          have hb2 : ¬(0xC0 ≤ 0xE0 + c.toNat / 4096 ∧
              0xE0 + c.toNat / 4096 ≤ 0xDF) := by omega
          have hb3 : 0xE0 ≤ 0xE0 + c.toNat / 4096 ∧
              0xE0 + c.toNat / 4096 ≤ 0xEF := ⟨by omega, by omega⟩
          have hcp : ¬((0xE0 + c.toNat / 4096 - 0xE0) * 4096 +
              (0x80 + c.toNat / 64 % 64 - 0x80) * 64 +
              (0x80 + c.toNat % 64 - 0x80) < 0x800 ∨
              (0xD800 ≤ (0xE0 + c.toNat / 4096 - 0xE0) * 4096 +
                (0x80 + c.toNat / 64 % 64 - 0x80) * 64 +
                (0x80 + c.toNat % 64 - 0x80) ∧
               (0xE0 + c.toNat / 4096 - 0xE0) * 4096 +
                (0x80 + c.toNat / 64 % 64 - 0x80) * 64 +
                (0x80 + c.toNat % 64 - 0x80) ≤ 0xDFFF)) := by omega
          have hval : (0xE0 + c.toNat / 4096 - 0xE0) * 4096 +
              (0x80 + c.toNat / 64 % 64 - 0x80) * 64 +
              (0x80 + c.toNat % 64 - 0x80) = c.toNat := by omega
          rw [hflat]
          simp only [decodeAux,
            readHex2_pct (0xE0 + c.toNat / 4096) (by omega),
            readCont_pct (0x80 + c.toNat / 64 % 64) (by omega) (by omega),
            readCont_pct (0x80 + c.toNat % 64) (by omega) (by omega),
            if_neg hb1, if_neg hb2, if_pos hb3, if_neg hcp, hval]
          simp only [Char.ofNat_toNat, if_true]
          rw [if_neg (show ¬(c.toNat < 2048 ∨
            55296 ≤ c.toNat ∧ c.toNat ≤ 57343) by omega)]
        · have hA : ¬(c.toNat < 0x80) := by omega
          have hB : ¬(c.toNat < 0x800) := by omega
          have hC : ¬(c.toNat < 0x10000) := by omega
          have hflat : pctEncodeChar c ++ tail =
              '%' :: hexDigitUpper ((0xF0 + c.toNat / 262144) / 16) ::
              hexDigitUpper ((0xF0 + c.toNat / 262144) % 16) ::
              ('%' :: hexDigitUpper ((0x80 + c.toNat / 4096 % 64) / 16) ::
                hexDigitUpper ((0x80 + c.toNat / 4096 % 64) % 16) ::
                ('%' :: hexDigitUpper ((0x80 + c.toNat / 64 % 64) / 16) ::
                  hexDigitUpper ((0x80 + c.toNat / 64 % 64) % 16) ::
                  ('%' :: hexDigitUpper ((0x80 + c.toNat % 64) / 16) ::
                    hexDigitUpper ((0x80 + c.toNat % 64) % 16) :: tail))) := by
            simp [pctEncodeChar, hu', utf8Bytes, hA, hB, hC]
          have hval110 : c.toNat < 0x110000 := by omega
          have hb1 : ¬(0xF0 + c.toNat / 262144 < 0x80) := by omega
          have hb2 : ¬(0xC0 ≤ 0xF0 + c.toNat / 262144 ∧
              0xF0 + c.toNat / 262144 ≤ 0xDF) := by omega
          have hb3 : ¬(0xE0 ≤ 0xF0 + c.toNat / 262144 ∧
              0xF0 + c.toNat / 262144 ≤ 0xEF) := by omega
          have hb4 : 0xF0 ≤ 0xF0 + c.toNat / 262144 ∧
              0xF0 + c.toNat / 262144 ≤ 0xF7 := ⟨by omega, by omega⟩
          have hcp : ¬((0xF0 + c.toNat / 262144 - 0xF0) * 262144 +
              (0x80 + c.toNat / 4096 % 64 - 0x80) * 4096 +
              (0x80 + c.toNat / 64 % 64 - 0x80) * 64 +
              (0x80 + c.toNat % 64 - 0x80) < 0x10000 ∨
              0x10FFFF < (0xF0 + c.toNat / 262144 - 0xF0) * 262144 +
                (0x80 + c.toNat / 4096 % 64 - 0x80) * 4096 +
                (0x80 + c.toNat / 64 % 64 - 0x80) * 64 +
                (0x80 + c.toNat % 64 - 0x80)) := by omega
          have hval : (0xF0 + c.toNat / 262144 - 0xF0) * 262144 +
              (0x80 + c.toNat / 4096 % 64 - 0x80) * 4096 +
              (0x80 + c.toNat / 64 % 64 - 0x80) * 64 +
              (0x80 + c.toNat % 64 - 0x80) = c.toNat := by omega
          rw [hflat]
          simp only [decodeAux,
            readHex2_pct (0xF0 + c.toNat / 262144) (by omega),
            readCont_pct (0x80 + c.toNat / 4096 % 64) (by omega) (by omega),
            readCont_pct (0x80 + c.toNat / 64 % 64) (by omega) (by omega),
            readCont_pct (0x80 + c.toNat % 64) (by omega) (by omega),
            if_neg hb1, if_neg hb2, if_neg hb3, if_pos hb4, if_neg hcp, hval]
          simp only [Char.ofNat_toNat, if_true]
          rw [if_neg (show ¬(c.toNat < 65536 ∨ 1114111 < c.toNat) by omega)]

/-- Every character encodes to at least one character. -/
theorem pctEncodeChar_length (c : Char) : 1 ≤ (pctEncodeChar c).length := by
  unfold pctEncodeChar
  split
  · simp
  · rcases hu8 : utf8Bytes c with _ | ⟨b, bs⟩
    · exfalso
      have hne : utf8Bytes c ≠ [] := by
        unfold utf8Bytes
        dsimp only
        split
        · simp
        · split
          · simp
          · split <;> simp
      exact hne hu8
    · simp [hu8]

/-- The encoded text is at least as long as the source text. -/
theorem encode_length_ge (p : List Char) :
    p.length ≤ ((p.map pctEncodeChar).flatten).length := by
  induction p with
  | nil => simp
  | cons c p' ih =>
    simp only [List.map_cons, List.flatten_cons, List.length_append,
      List.length_cons]
    have h1 := pctEncodeChar_length c
    omega

/-- Decoding an encoded character list yields the original list. -/
theorem decodeAux_encode (p : List Char) :
    ∀ fuel, p.length ≤ fuel →
      decodeAux fuel ((p.map pctEncodeChar).flatten) = some p := by
  induction p with
  | nil =>
    intro fuel h
    cases fuel <;> rfl
  | cons c p' ih =>
    intro fuel h
    match fuel with
    | 0 => simp at h
    | f + 1 =>
      simp only [List.map_cons, List.flatten_cons]
      rw [decodeAux_pct c f _, ih f (by simp at h; omega)]
      rfl

/-- decodeURIComponent inverts encodeURIComponent on every string of
Unicode scalar values. -/
theorem decode_encode (p : String) :
    decodeURIComponent (encodeURIComponent p) = Except.ok p := by
  unfold decodeURIComponent encodeURIComponent
  rw [show (String.mk ((p.data.map pctEncodeChar).flatten)).data =
    (p.data.map pctEncodeChar).flatten from rfl]
  rw [decodeAux_encode p.data _ (encode_length_ge p.data)]

/-- indexOf finds a separator character exactly at the end of a prefix
that does not contain it. -/
theorem jsIndexOfAux_sep (c : Char) :
    ∀ (pre cs : List Char), c ∉ pre → ∀ i : Nat,
      jsIndexOfAux (pre ++ c :: cs) [c] i = some (i + pre.length) := by
  intro pre
  induction pre with
  | nil =>
    intro cs h i
    simp [jsIndexOfAux]
  | cons p ps ih =>
    intro cs h i
    have hne : ¬(p = c) := fun hh => h (by simp [hh])
    simp only [List.cons_append, jsIndexOfAux, List.append_eq]
    have hcond : ((p :: (ps ++ c :: cs)).take ([c] : List Char).length
        == [c]) = false := by
      simp [hne]
    rw [hcond]
    simp only [Bool.false_eq_true, if_false,
      ih cs (fun hm => h (by simp [hm])) (i + 1), List.length_cons,
      Option.some.injEq]
    omega

/-- Slicing within the left part of a concatenation ignores the right
part. -/
theorem jsSlice_append_left (s t : String) (a b : Int)
    (h0a : 0 ≤ a) (has : a ≤ (s.data.length : Int))
    (h0b : 0 ≤ b) (hbs : b ≤ (s.data.length : Int)) :
    jsSlice (s ++ t) a b = jsSlice s a b := by
  simp only [jsSlice, String.data_append, List.length_append]
  rw [if_neg (by omega), if_neg (by omega), if_neg (by omega),
    if_neg (by omega)]
  rw [min_eq_left (by push_cast; omega), min_eq_left hbs,
    min_eq_left (by push_cast; omega), min_eq_left has,
    List.take_append_of_le_length (by omega)]

/-- The comma of a base64 `data:` URI sits at index 28. -/
theorem jsIndexOf_comma_b64 (p : String) :
    jsIndexOf ("data:application/json;base64," ++ p) "," = 28 := by
  have hdata : ("data:application/json;base64," ++ p).data =
      "data:application/json;base64".data ++ ',' :: p.data := by
    rw [String.data_append,
      show ("data:application/json;base64," : String).data =
        "data:application/json;base64".data ++ [','] from rfl,
      List.append_assoc]
    rfl
  unfold jsIndexOf
  rw [show ("," : String).data = [','] from rfl, hdata,
    jsIndexOfAux_sep ',' _ _ (by decide) 0]
  rfl

/-- The comma of a plain `data:` URI sits at index 21. -/
theorem jsIndexOf_comma_plain (p : String) :
    jsIndexOf ("data:application/json," ++ p) "," = 21 := by
  have hdata : ("data:application/json," ++ p).data =
      "data:application/json".data ++ ',' :: p.data := by
    rw [String.data_append,
      show ("data:application/json," : String).data =
        "data:application/json".data ++ [','] from rfl,
      List.append_assoc]
    rfl
  unfold jsIndexOf
  rw [show ("," : String).data = [','] from rfl, hdata,
    jsIndexOfAux_sep ',' _ _ (by decide) 0]
  rfl

/-- The metadata slice of the base64 `data:` URI. -/
theorem jsSlice_meta_b64 (p : String) :
    jsSlice ("data:application/json;base64," ++ p) 5 28 =
      "application/json;base64" := by
  rw [jsSlice_append_left _ _ _ _ (by decide) (by decide) (by decide)
    (by decide)]
  decide

/-- The metadata slice of the plain `data:` URI. -/
theorem jsSlice_meta_plain (p : String) :
    jsSlice ("data:application/json," ++ p) 5 21 = "application/json" := by
  rw [jsSlice_append_left _ _ _ _ (by decide) (by decide) (by decide)
    (by decide)]
  decide

/-- The payload slice of the base64 `data:` URI. -/
theorem jsSliceFrom_b64 (p : String) :
    jsSliceFrom ("data:application/json;base64," ++ p) (28 + 1) = p := by
  have h29 : ((("data:application/json;base64," : String).data.length :
      Nat) : Int) = 28 + 1 := by decide
  rw [← h29]
  exact jsSliceFrom_append _ p

/-- The payload slice of the plain `data:` URI. -/
theorem jsSliceFrom_plain (p : String) :
    jsSliceFrom ("data:application/json," ++ p) (21 + 1) = p := by
  have h22 : ((("data:application/json," : String).data.length :
      Nat) : Int) = 21 + 1 := by decide
  rw [← h22]
  exact jsSliceFrom_append _ p

/-- C7: round trips through `data:` URIs.  Any string surviving btoa
(all code points below 256) is recovered by the base64 data path, any
string of scalar values is recovered by the percent-encoded data path,
and neither path performs a network fetch (the fetch trace is empty and
the fetch function is irrelevant). -/
theorem parseAgentFileUri_data_roundtrip :
    (∀ (fetch : String → HttpResponse) (p b64s : String),
      btoa p = Except.ok b64s →
      parseAgentFileUri fetch ("data:application/json;base64," ++ b64s) =
        ([], Except.ok p)) ∧
    (∀ (fetch : String → HttpResponse) (p : String),
      parseAgentFileUri fetch
        ("data:application/json," ++ encodeURIComponent p) =
        ([], Except.ok p)) := by
  constructor
  · intro fetch p b64s h
    have hdec := atob_btoa p b64s h
    have hstart : jsStartsWith ("data:application/json;base64," ++ b64s)
        "data:" = true := by
      rw [jsStartsWith_append_left _ _ _ (by decide)]
      decide
    have hidx := jsIndexOf_comma_b64 b64s
    have hmeta := jsSlice_meta_b64 b64s
    have hpay := jsSliceFrom_b64 b64s
    simp only [parseAgentFileUri]
    rw [if_pos hstart]
    simp only [hidx]
    rw [hmeta, hpay,
      if_pos (show jsIncludes "application/json;base64" "base64" = true by
        decide), hdec]
  · intro fetch p
    have hstart : jsStartsWith
        ("data:application/json," ++ encodeURIComponent p) "data:" = true := by
      rw [jsStartsWith_append_left _ _ _ (by decide)]
      decide
    have hidx := jsIndexOf_comma_plain (encodeURIComponent p)
    have hmeta := jsSlice_meta_plain (encodeURIComponent p)
    have hpay := jsSliceFrom_plain (encodeURIComponent p)
    simp only [parseAgentFileUri]
    rw [if_pos hstart]
    simp only [hidx]
    rw [hmeta, hpay,
      if_neg (show ¬(jsIncludes "application/json" "base64" = true) by
        decide), decode_encode]

/-- Witness for parseAgentFileUri_data_roundtrip: a concrete JSON payload
through the base64 path and through the percent-encoded path. -/
theorem parseAgentFileUri_data_roundtrip_witness :
    parseAgentFileUri (fun _ => { ok := true, status := 200, body := "" })
      ("data:application/json;base64," ++ "eyJhIjoxfQ==") =
      ([], Except.ok "\x7b\"a\":1\x7d") ∧
    parseAgentFileUri (fun _ => { ok := true, status := 200, body := "" })
      ("data:application/json," ++ encodeURIComponent "\x7b\"a\":1\x7d") =
      ([], Except.ok "\x7b\"a\":1\x7d") :=
  ⟨parseAgentFileUri_data_roundtrip.1
      (fun _ => { ok := true, status := 200, body := "" })
      "\x7b\"a\":1\x7d" "eyJhIjoxfQ==" rfl,
   parseAgentFileUri_data_roundtrip.2
      (fun _ => { ok := true, status := 200, body := "" })
      "\x7b\"a\":1\x7d"⟩
